import Mathlib

/-!
Verification of the financial-metrics core of the equity-analyzer dashboard
(src/app.py) against its natural-language specification.

Conventions of the shallow embedding:
* Dates are day numbers (`ℤ`).  The source computes the NPV exponent as the
  float `(d - dates.iloc[0]).days / 365`; the embedding uses the integer
  exponent `(d - d0) / 365`, which coincides with the source exactly on cash
  flows dated at whole multiples of 365 days from the first flow (all concrete
  inputs below are of that shape).
* Monetary amounts and rates are `ℚ`, the idealisation of the source's
  floats; every bisection state the source reaches is a dyadic combination of
  the rational bounds, hence exactly representable.
* A pandas missing value (NaN) is `Option.none`.
-/

namespace EquityAnalyzer

/-- One synthesized cash flow: a day number and a signed amount
(src/app.py, `cashflows` rows: `(date, amount)`). -/
structure Cf where
  days : ℤ
  amount : ℚ
  deriving DecidableEq, Repr

/-- Net present value of a cash-flow list at rate `r`
(src/app.py lines 18-22): `sum(amt / (1 + rate) ** ((d - dates.iloc[0]).days / 365))`.
The base date `d0` is the first element's date, exactly as `dates.iloc[0]`;
for the empty list the sum is 0, faithfully: the Python generator never
evaluates `dates.iloc[0]` when there are no rows. -/
def npv (cf : List Cf) (r : ℚ) : ℚ :=
  match cf with
  | [] => 0
  | c0 :: _ => (cf.map (fun c => c.amount / (1 + r) ^ ((c.days - c0.days) / 365))).sum

/-- Absolute value on `ℚ`, written out as the Python builtin `abs` computes
it. -/
def ratAbs (x : ℚ) : ℚ :=
  if x < 0 then -x else x

/-- The bisection loop of src/app.py lines 25-34, with explicit fuel and the
last computed midpoint threaded as `lastMid` (the Python `return mid` after
the loop returns the midpoint computed in the final iteration; `lastMid` is
only consulted when the fuel runs out). -/
def bisectLoop (f : ℚ → ℚ) : ℕ → ℚ → ℚ → ℚ → ℚ
  | 0, _, _, lastMid => lastMid
  | n + 1, low, high, _ =>
      let mid := (low + high) / 2
      let val := f mid
      if ratAbs val < 1 / 1000000 then mid
      else if val > 0 then bisectLoop f n mid high mid
      else bisectLoop f n low mid mid

/-- XIRR estimator of src/app.py lines 14-34: bisection of `npv` over
`[-0.99, 3.0]` for 100 iterations or until `|npv(mid)| < 1e-6`.
The initial `lastMid` argument `0` is never returned, since the fuel is
positive.  The function is total: the source has no failure path of any
kind. -/
def calculate_xirr (cf : List Cf) : ℚ :=
  bisectLoop (npv cf) 100 (-99 / 100) 3 0

/-- The percentage the dashboard displays (src/app.py line 195):
`xirr = calculate_xirr(cashflow_df) * 100`. -/
def xirrDisplay (cf : List Cf) : ℚ :=
  calculate_xirr cf * 100

/-- Uniform scaling of all cash-flow amounts by `k` (dates untouched). -/
def scaleCf (k : ℚ) (cf : List Cf) : List Cf :=
  cf.map fun c => ⟨c.days, k * c.amount⟩

/-- NPV has the same sign at both bisection bounds `-0.99` and `3.0`
(the non-bracketing situation of the `NoConvergenceError` spec clause). -/
def sameSignAtBounds (cf : List Cf) : Prop :=
  (0 < npv cf (-99 / 100) ∧ 0 < npv cf 3) ∨ (npv cf (-99 / 100) < 0 ∧ npv cf 3 < 0)

/-- The cash flows of the known-rate scenario: −100 at day 0, +110 at day
365. -/
def knownCf : List Cf := [⟨0, -100⟩, ⟨365, 110⟩]

/-- A degenerate all-positive cash-flow list: a single inflow of 100 at
day 0.  Its NPV is 100 at every rate, so no root is bracketed. -/
def posCf : List Cf := [⟨0, 100⟩]

/-- Unfolding lemma for a loop iteration with positive NPV at the midpoint:
the lower bound moves up (src/app.py lines 30-31). -/
theorem bisectLoop_pos (f : ℚ → ℚ) (n : ℕ) (low high m : ℚ)
    (h1 : ¬ ratAbs (f ((low + high) / 2)) < 1 / 1000000)
    (h2 : f ((low + high) / 2) > 0) :
    bisectLoop f (n + 1) low high m =
      bisectLoop f n ((low + high) / 2) high ((low + high) / 2) := by
  simp only [bisectLoop]
  rw [if_neg h1, if_pos h2]

/-- On `ℚ` the model absolute value agrees with `abs`. -/
theorem ratAbs_eq_abs (x : ℚ) : ratAbs x = |x| := by
  unfold ratAbs
  rcases lt_or_le x 0 with h | h
  · rw [if_pos h, abs_of_neg h]
  · rw [if_neg (not_lt.mpr h), abs_of_nonneg h]

/-- Closed form of the NPV of `knownCf`: the exponents are 0 and 1, so
NPV(r) = −100 + 110/(1+r). -/
theorem npv_knownCf (r : ℚ) : npv knownCf r = -100 + 110 / (1 + r) := by
  simp [npv, knownCf]

/-- NPV of the all-positive flow `posCf` is 100 at every rate. -/
theorem npv_posCf (r : ℚ) : npv posCf r = 100 := by
  simp [npv, posCf]

/-- Exact value the source's bisection reaches on the known-rate cash flows:
it stops after 25 iterations with `|NPV| < 1e-6` at the midpoint
335544333/3355443200 ≈ 0.0999999938. -/
theorem calculate_xirr_knownCf_eq :
    calculate_xirr knownCf = 335544333 / 3355443200 := by
  with_unfolding_all rfl

/-- When NPV stays at least the tolerance 1e-6 at every rate, no iteration can
take the early return and every iteration moves the lower bound up, so the
loop returns the last midpoint `high - (high - low)/2^(n+1)`. -/
theorem bisectLoop_of_tol_le (f : ℚ → ℚ) (hf : ∀ r, 1 / 1000000 ≤ f r) :
    ∀ (n : ℕ) (low high m : ℚ),
      bisectLoop f (n + 1) low high m = high - (high - low) / 2 ^ (n + 1) := by
  intro n
  induction n with
  | zero =>
      intro low high m
      have hmid := hf ((low + high) / 2)
      have h1 : ¬ ratAbs (f ((low + high) / 2)) < 1 / 1000000 := by
        rw [ratAbs_eq_abs, abs_of_nonneg (le_trans (by norm_num) hmid)]
        exact not_lt.mpr hmid
      have h2 : f ((low + high) / 2) > 0 := lt_of_lt_of_le (by norm_num) hmid
      rw [bisectLoop_pos f 0 low high m h1 h2]
      show (low + high) / 2 = high - (high - low) / 2 ^ (0 + 1)
      ring
  | succ k ih =>
      intro low high m
      have hmid := hf ((low + high) / 2)
      have h1 : ¬ ratAbs (f ((low + high) / 2)) < 1 / 1000000 := by
        rw [ratAbs_eq_abs, abs_of_nonneg (le_trans (by norm_num) hmid)]
        exact not_lt.mpr hmid
      have h2 : f ((low + high) / 2) > 0 := lt_of_lt_of_le (by norm_num) hmid
      rw [bisectLoop_pos f (k + 1) low high m h1 h2, ih ((low + high) / 2) high ((low + high) / 2)]
      rw [pow_succ]
      field_simp
      ring

/-- C1: for the cash flows −100 at day 0 and +110 at day 365, the bisection of
NPV over [−0.99, 3.0] (100 iterations, tolerance 1e-6) returns a rate within
1e-4 of 0.10. -/
theorem xirr_recovers_known_rate :
    |calculate_xirr knownCf - 1 / 10| < 1 / 10000 := by
  rw [calculate_xirr_knownCf_eq, abs_sub_lt_iff]
  norm_num

set_option maxRecDepth 4000 in
/-- C2 counterexample: on the all-positive cash-flow list `posCf` the NPV has
the same (positive) sign at both bisection bounds, yet `calculate_xirr` does
not fail: it returns the final midpoint 3 − 3.99/2^100, an ordinary value.
The source raises no error of any kind. -/
theorem xirr_same_sign_returns_value :
    sameSignAtBounds posCf ∧ calculate_xirr posCf = 3 - 399 / (100 * 2 ^ 100) := by
  constructor
  · exact Or.inl ⟨by rw [npv_posCf]; norm_num, by rw [npv_posCf]; norm_num⟩
  · with_unfolding_all rfl

/-- C2 amended: the source performs no bracket check.  When NPV is at least
the tolerance at every rate (so no root is bracketed and no iteration can take
the early return), `calculate_xirr` returns the last bisection midpoint
3 − 3.99/2^100 instead of failing: no `NoConvergenceError` exists in the
code. -/
theorem xirr_unbracketed_returns_last_midpoint (cf : List Cf)
    (hf : ∀ r, 1 / 1000000 ≤ npv cf r) :
    calculate_xirr cf = 3 - 399 / (100 * 2 ^ 100) := by
  unfold calculate_xirr
  rw [show (100 : ℕ) = 99 + 1 from rfl, bisectLoop_of_tol_le (npv cf) hf 99 (-99 / 100) 3 0]
  norm_num

/-- Witness for the C2 amended theorem at the concrete input `posCf`. -/
theorem xirr_unbracketed_returns_last_midpoint_witness :
    (∀ r : ℚ, 1 / 1000000 ≤ npv posCf r) ∧
      calculate_xirr posCf = 3 - 399 / (100 * 2 ^ 100) :=
  ⟨fun r => by rw [npv_posCf]; norm_num,
    xirr_unbracketed_returns_last_midpoint posCf
      (fun r => by rw [npv_posCf]; norm_num)⟩

/-- C7 counterexample: scaling the known cash flows by the positive constant
k = 1e-9 changes the solved rate: the scaled NPV is below the absolute
tolerance 1e-6 already at the first midpoint 1.005, so the loop returns 1.005,
while the unscaled run returns ≈ 0.1. -/
theorem xirr_scaling_changes_result :
    (0 : ℚ) < 1 / 1000000000 ∧
      calculate_xirr (scaleCf (1 / 1000000000) knownCf) ≠ calculate_xirr knownCf := by
  refine ⟨by norm_num, ?_⟩
  have hs : calculate_xirr (scaleCf (1 / 1000000000) knownCf) = 201 / 200 := by
    with_unfolding_all rfl
  rw [hs, calculate_xirr_knownCf_eq]
  norm_num

/-- C7 amended: uniform positive scaling multiplies NPV by the scalar at every
rate and preserves its sign, but the returned rate itself need not be
invariant, because the early-return test compares the absolute NPV against the
fixed tolerance 1e-6, which is not scale-invariant. -/
theorem npv_scales_linearly (cf : List Cf) (k r : ℚ) (hk : 0 < k) :
    npv (scaleCf k cf) r = k * npv cf r ∧
      (0 < npv (scaleCf k cf) r ↔ 0 < npv cf r) := by
  have hmain : npv (scaleCf k cf) r = k * npv cf r := by
    match cf with
    | [] => simp [npv, scaleCf]
    | c0 :: rest =>
        show npv (scaleCf k (c0 :: rest)) r = k * npv (c0 :: rest) r
        have hgen : ∀ (l : List Cf) (d0 : ℤ),
            ((l.map fun c => k * c.amount / (1 + r) ^ ((c.days - d0) / 365))).sum =
              k * ((l.map fun c => c.amount / (1 + r) ^ ((c.days - d0) / 365))).sum := by
          intro l d0
          induction l with
          | nil => simp
          | cons c l ih =>
              simp only [List.map_cons, List.sum_cons]
              rw [ih]
              ring
        simp only [scaleCf, npv, List.map_cons, List.map_map]
        exact hgen (c0 :: rest) c0.days
  refine ⟨hmain, ?_⟩
  rw [hmain]
  constructor
  · intro h
    by_contra hx
    push_neg at hx
    nlinarith
  · intro h
    exact mul_pos hk h

/-- Witness for the C7 amended theorem at `knownCf`, k = 2, r = 0. -/
theorem npv_scales_linearly_witness :
    (0 : ℚ) < 2 ∧
      (npv (scaleCf 2 knownCf) 0 = 2 * npv knownCf 0 ∧
        (0 < npv (scaleCf 2 knownCf) 0 ↔ 0 < npv knownCf 0)) :=
  ⟨by norm_num, npv_scales_linearly knownCf 2 0 (by norm_num)⟩

/-- C10: the empty cash-flow list (zero trades) raises nothing.  The NPV of an
empty sum is 0, the tolerance test succeeds at the very first midpoint
(−0.99 + 3)/2 = 1.005, `calculate_xirr` returns 1.005, and the caller's
`* 100` (line 195) displays it as 100.5 %. -/
theorem xirr_empty_cashflows_returns_midpoint :
    npv [] ((-99 / 100 + 3) / 2) = 0 ∧
      calculate_xirr [] = 201 / 200 ∧ xirrDisplay [] = 201 / 2 := by
  refine ⟨rfl, by with_unfolding_all rfl, ?_⟩
  have h : calculate_xirr [] = 201 / 200 := by with_unfolding_all rfl
  rw [xirrDisplay, h]
  norm_num

/-- One trade row after the derived-column step (src/app.py lines 266-268):
the exit date's calendar year and month (`dt.year`, `dt.month`; months are
numbered 1..12, standing for the canonical `month_name` columns Jan..Dec,
whose fixed order `month_order` coincides with numeric month order) and the
realized profit/loss. -/
structure PnlTrade where
  year : ℤ
  month : ℕ
  pnl : ℚ
  deriving DecidableEq, Repr

/-- Sum of pnl over the trades of a (year, month) group
(src/app.py lines 270-274: `trades.groupby(["year", "month", "month_name"])["pnl"].sum()`). -/
def monthlySum (ts : List PnlTrade) (y : ℤ) (m : ℕ) : ℚ :=
  ((ts.filter fun t => t.year == y && t.month == m).map PnlTrade.pnl).sum

/-- Whether some trade falls in the (year, month) group. -/
def hasTrade (ts : List PnlTrade) (y : ℤ) (m : ℕ) : Bool :=
  ts.any fun t => t.year == y && t.month == m

/-- Whether month `m` occurs in any trade at all: exactly when the pivot of
src/app.py line 281 has a column for that month before the reindex. -/
def monthColExists (ts : List PnlTrade) (m : ℕ) : Bool :=
  ts.any fun t => t.month == m

/-- Cell of `pnl_pivot` at (year, month) after
`.pivot(index="year", columns="month_name", values="pnl").reindex(columns=month_order, fill_value=0)`
(src/app.py lines 279-283).  `pivot` leaves NaN (`none`) where the (year,
month) combination has no group; `reindex` with `fill_value=0` fills only the
columns it newly introduces — months absent from every trade — and leaves the
pre-existing columns' NaN holes untouched. -/
def pivotCell (ts : List PnlTrade) (y : ℤ) (m : ℕ) : Option ℚ :=
  if hasTrade ts y m then some (monthlySum ts y m)
  else if monthColExists ts m then none
  else some 0

/-- The per-year `Total` column (src/app.py line 285:
`pnl_pivot.sum(axis=1)`): pandas row-sum over the twelve month columns with
`skipna=True`, so a NaN cell contributes 0. -/
def rowTotal (ts : List PnlTrade) (y : ℤ) : ℚ :=
  ∑ m in Finset.Icc 1 12, (pivotCell ts y m).getD 0

/-- The yearly PnL series value for a year
(src/app.py lines 358-362: `trades.groupby("year")["pnl"].sum()`). -/
def yearly_pnl (ts : List PnlTrade) (y : ℤ) : ℚ :=
  ((ts.filter fun t => t.year == y).map PnlTrade.pnl).sum

/-- A (year, month) group with no trade sums to zero. -/
theorem monthlySum_of_not_hasTrade (ts : List PnlTrade) (y : ℤ) (m : ℕ)
    (h : ¬ hasTrade ts y m = true) :
    monthlySum ts y m = 0 := by
  unfold monthlySum
  have hnil : (ts.filter fun t => t.year == y && t.month == m) = [] := by
    rw [List.filter_eq_nil_iff]
    intro t ht hcond
    exact h (List.any_eq_true.mpr ⟨t, ht, hcond⟩)
  rw [hnil]
  rfl

/-- The `Total` cell summand: with the pandas skipna convention every cell of
the row contributes exactly the group sum. -/
theorem pivotCell_getD (ts : List PnlTrade) (y : ℤ) (m : ℕ) :
    (pivotCell ts y m).getD 0 = monthlySum ts y m := by
  unfold pivotCell
  by_cases h1 : hasTrade ts y m = true
  · rw [if_pos h1]
    rfl
  · rw [if_neg h1, monthlySum_of_not_hasTrade ts y m h1]
    by_cases h2 : monthColExists ts m = true
    · rw [if_pos h2]
      rfl
    · rw [if_neg h2]
      rfl

/-- Splitting a group sum at a cons. -/
theorem monthlySum_cons (t : PnlTrade) (ts : List PnlTrade) (y : ℤ) (m : ℕ) :
    monthlySum (t :: ts) y m =
      (if t.year = y ∧ t.month = m then t.pnl else 0) + monthlySum ts y m := by
  unfold monthlySum
  rw [List.filter_cons]
  by_cases h : t.year = y ∧ t.month = m
  · have hb : (t.year == y && t.month == m) = true := by
      simp [h.1, h.2]
    rw [if_pos hb, if_pos h, List.map_cons, List.sum_cons]
  · have hb : ¬ (t.year == y && t.month == m) = true := by
      simp only [Bool.and_eq_true, beq_iff_eq]
      exact h
    rw [if_neg hb, if_neg h, zero_add]

/-- Splitting the yearly sum at a cons. -/
theorem yearly_pnl_cons (t : PnlTrade) (ts : List PnlTrade) (y : ℤ) :
    yearly_pnl (t :: ts) y = (if t.year = y then t.pnl else 0) + yearly_pnl ts y := by
  unfold yearly_pnl
  rw [List.filter_cons]
  by_cases h : t.year = y
  · have hb : (t.year == y) = true := by simp [h]
    rw [if_pos hb, if_pos h, List.map_cons, List.sum_cons]
  · have hb : ¬ (t.year == y) = true := by simp [h]
    rw [if_neg hb, if_neg h, zero_add]

/-- C3: for every trade sequence whose months are calendar months (1..12, as
`dt.month` always produces), the per-year `Total` column of the pivot equals
the skipna sum of that year's twelve month cells — that is how line 285
computes it — and equals the `yearly_pnl` series value of the year. -/
theorem pivot_total_eq_yearly_pnl (ts : List PnlTrade) (y : ℤ)
    (hm : ∀ t ∈ ts, 1 ≤ t.month ∧ t.month ≤ 12) :
    rowTotal ts y = ∑ m in Finset.Icc 1 12, (pivotCell ts y m).getD 0 ∧
      rowTotal ts y = yearly_pnl ts y := by
  refine ⟨rfl, ?_⟩
  unfold rowTotal
  induction ts with
  | nil =>
      simp only [Finset.sum_congr rfl fun m _ => pivotCell_getD [] y m]
      simp [monthlySum, yearly_pnl]
  | cons t ts ih =>
      have hmem : t.month ∈ Finset.Icc 1 12 :=
        Finset.mem_Icc.mpr (hm t (List.mem_cons_self t ts))
      have ih' := ih fun u hu => hm u (List.mem_cons_of_mem t hu)
      calc ∑ m in Finset.Icc 1 12, (pivotCell (t :: ts) y m).getD 0
          = ∑ m in Finset.Icc 1 12,
              ((if t.year = y ∧ t.month = m then t.pnl else 0) + monthlySum ts y m) := by
            refine Finset.sum_congr rfl fun m _ => ?_
            rw [pivotCell_getD, monthlySum_cons]
        _ = (∑ m in Finset.Icc 1 12, if t.year = y ∧ t.month = m then t.pnl else 0) +
              ∑ m in Finset.Icc 1 12, monthlySum ts y m := Finset.sum_add_distrib
        _ = (if t.year = y then t.pnl else 0) + yearly_pnl ts y := by
            congr 1
            · by_cases hy : t.year = y
              · simp only [hy, true_and]
                rw [Finset.sum_ite_eq (Finset.Icc 1 12) t.month fun _ => t.pnl]
                simp [hmem]
              · simp [hy]
            · rw [← ih']
              exact Finset.sum_congr rfl fun m _ => (pivotCell_getD ts y m).symm
        _ = yearly_pnl (t :: ts) y := (yearly_pnl_cons t ts y).symm

/-- Witness for C3 at a concrete two-trade input. -/
theorem pivot_total_eq_yearly_pnl_witness :
    (∀ t ∈ [(⟨2020, 1, 5⟩ : PnlTrade), ⟨2021, 2, 7⟩], 1 ≤ t.month ∧ t.month ≤ 12) ∧
      (rowTotal [⟨2020, 1, 5⟩, ⟨2021, 2, 7⟩] 2020 =
          ∑ m in Finset.Icc 1 12, (pivotCell [⟨2020, 1, 5⟩, ⟨2021, 2, 7⟩] 2020 m).getD 0 ∧
        rowTotal [⟨2020, 1, 5⟩, ⟨2021, 2, 7⟩] 2020 =
          yearly_pnl [⟨2020, 1, 5⟩, ⟨2021, 2, 7⟩] 2020) :=
  ⟨by decide, pivot_total_eq_yearly_pnl [⟨2020, 1, 5⟩, ⟨2021, 2, 7⟩] 2020 (by decide)⟩

/-- C4: at the two-trade input with a January 2020 trade and a February 2021
trade, the pivot's (2021, Jan) cell is NaN (`none`), not 0: the Jan column
already exists before the reindex, so `fill_value=0` does not touch its hole.
A month absent from every trade, such as March, is a newly introduced column
and genuinely reads 0 in every year row. -/
theorem pivot_cell_nan_on_cross_year_hole :
    pivotCell [⟨2020, 1, 5⟩, ⟨2021, 2, 7⟩] 2021 1 = none ∧
      pivotCell [⟨2020, 1, 5⟩, ⟨2021, 2, 7⟩] 2020 3 = some 0 ∧
      pivotCell [⟨2020, 1, 5⟩, ⟨2021, 2, 7⟩] 2020 1 = some 5 := by
  refine ⟨?_, ?_, ?_⟩ <;> with_unfolding_all rfl

/-- The required trade columns (src/app.py lines 145-149), a set literal in
the source, modelled as a list: `charges` and `holding_days` are among them,
not optional. -/
def required_trade_cols : List String :=
  ["entry_date", "exit_date", "entry_price", "exit_price", "quantity", "pnl",
    "charges", "holding_days"]

/-- The schema check of src/app.py line 153:
`required_trade_cols.issubset(trades.columns)`.  When it is false the app
reports the missing columns and halts (`st.error` + `st.stop`, lines
154-155); nothing is ever synthesized. -/
def tradeColsOk (cols : List String) : Bool :=
  required_trade_cols.all fun c => cols.contains c

/-- A trade table carrying every column except the ones the spec calls
optional (`charges`, `holding_days`, instrument label). -/
def colsNoOptional : List String :=
  ["entry_date", "exit_date", "entry_price", "exit_price", "quantity", "pnl"]

/-- C6 counterexample: a trade table lacking only the spec's optional fields
fails the schema check, so validation halts instead of succeeding and
synthesizing defaults. -/
theorem validator_rejects_absent_optional_cols :
    tradeColsOk colsNoOptional = false := by
  with_unfolding_all rfl

/-- C6 amended: any trade table missing `charges` or `holding_days` fails
validation — those columns are in `required_trade_cols`, so the subset test
cannot succeed without them; the source synthesizes nothing (the instrument
label is not checked at all, so its absence alone never causes rejection). -/
theorem validator_requires_optional_cols (cols : List String)
    (h : "charges" ∉ cols ∨ "holding_days" ∉ cols) :
    tradeColsOk cols = false := by
  rcases h with h | h
  all_goals
    unfold tradeColsOk required_trade_cols
    rw [List.all_eq_false]
  · exact ⟨"charges", by simp, by simpa using h⟩
  · exact ⟨"holding_days", by simp, by simpa using h⟩

/-- Witness for the C6 amended theorem at the concrete column list. -/
theorem validator_requires_optional_cols_witness :
    ("charges" ∉ colsNoOptional ∨ "holding_days" ∉ colsNoOptional) ∧
      tradeColsOk colsNoOptional = false :=
  ⟨Or.inl (by simp [colsNoOptional]),
    validator_requires_optional_cols colsNoOptional (Or.inl (by simp [colsNoOptional]))⟩

/-- The last capital value recorded for date `d`, in input order: the value
`groupby("Date")["capital_deployed"].last()` picks for the group of `d`. -/
def lastFor (obs : List (ℤ × ℚ)) (d : ℤ) : Option ℚ :=
  ((obs.filter fun p => p.1 == d).map Prod.snd).getLast?

/-- The capital series of src/app.py lines 315-320:
`capital.groupby("Date").last().reset_index()`.  Pandas groupby sorts the
group keys ascending, keeps one row per distinct date, and `.last()` takes
the last record of each group in input order.  The `getD 0` default is never
exercised: every date in the sorted key list has at least one observation. -/
def capital_df (obs : List (ℤ × ℚ)) : List (ℤ × ℚ) :=
  ((obs.map Prod.fst).toFinset.sort (· ≤ ·)).map fun d => (d, (lastFor obs d).getD 0)

/-- C8: for every capital-observation sequence the derived series is strictly
increasing in date (hence at most one point per distinct date, sorted
ascending), and each point's value is the last input observation for that
date, by input order. -/
theorem capital_df_last_per_date_sorted (obs : List (ℤ × ℚ)) :
    (capital_df obs).Pairwise (fun p q => p.1 < q.1) ∧
      ∀ p ∈ capital_df obs, lastFor obs p.1 = some p.2 := by
  constructor
  · have hs : ((obs.map Prod.fst).toFinset.sort (· ≤ ·)).Sorted (· < ·) :=
      Finset.sort_sorted_lt _
    exact List.Pairwise.map _ (fun a b hab => hab) hs
  · intro p hp
    obtain ⟨d, hd, rfl⟩ := List.mem_map.mp hp
    have hdin : d ∈ obs.map Prod.fst := by
      have := (Finset.mem_sort (α := ℤ) (· ≤ ·)).mp hd
      exact List.mem_toFinset.mp this
    obtain ⟨q, hq, hq1⟩ := List.mem_map.mp hdin
    have hqf : q ∈ obs.filter fun p => p.1 == d := by
      rw [List.mem_filter]
      exact ⟨hq, by simp [hq1]⟩
    have hne : ((obs.filter fun p => p.1 == d).map Prod.snd) ≠ [] := by
      intro hnil
      rw [List.map_eq_nil_iff] at hnil
      rw [hnil] at hqf
      cases hqf
    have hsome : (lastFor obs d).isSome := by
      unfold lastFor
      rw [List.getLast?_isSome]
      exact hne
    obtain ⟨v, hv⟩ := Option.isSome_iff_exists.mp hsome
    simp [hv]

/-- Witness for C8 at a concrete input with a duplicated date: the series
keeps the later observation 20 for date 1, not the earlier 10. -/
theorem capital_df_last_per_date_sorted_witness :
    ((1 : ℤ), (20 : ℚ)) ∈ capital_df [(1, 10), (1, 20), (0, 5)] ∧
      lastFor [(1, 10), (1, 20), (0, 5)] 1 = some 20 := by
  have hmem : ((1 : ℤ), (20 : ℚ)) ∈ capital_df [(1, 10), (1, 20), (0, 5)] := by
    have : capital_df [(1, 10), (1, 20), (0, 5)] = [(0, 5), (1, 20)] := by
      with_unfolding_all rfl
    rw [this]
    simp
  exact ⟨hmem, (capital_df_last_per_date_sorted [(1, 10), (1, 20), (0, 5)]).2 _ hmem⟩

/-- Win rate of src/app.py line 167: `(trades["pnl"] > 0).mean() * 100`.
The mean of an empty series is NaN in pandas, modelled as `none`; with at
least one trade it is the fraction of strictly positive pnl values, times
100. -/
def win_rate (pnls : List ℚ) : Option ℚ :=
  match pnls with
  | [] => none
  | _ => some ((((pnls.filter fun p => 0 < p).length : ℚ) / (pnls.length : ℚ)) * 100)

/-- Average holding days of src/app.py line 168:
`trades["holding_days"].mean()` — NaN (`none`) on an empty trade table. -/
def avg_holding (hds : List ℚ) : Option ℚ :=
  match hds with
  | [] => none
  | _ => some (hds.sum / (hds.length : ℚ))

/-- C9 counterexample: with zero trades neither division-based metric is the
fallback value 0 — both are NaN. -/
theorem zero_trades_metrics_not_zero :
    win_rate [] ≠ some 0 ∧ avg_holding [] ≠ some 0 := by
  constructor <;> intro h <;> cases h

/-- C9 amended: with zero trades the win rate and the average holding period
evaluate to NaN (an undefined value that propagates to the display); the
source contains no fallback.  No division fault is raised: pandas returns NaN
rather than erroring. -/
theorem zero_trades_metrics_nan :
    win_rate [] = none ∧ avg_holding [] = none :=
  ⟨rfl, rfl⟩

end EquityAnalyzer
